import Mathlib

/-!
Verification of the geometric-transform and heatmap-decoding subsystem of
`trackers/utils/basetransforms.py` (AlphaPose).  Heatmaps and images are
embedded as nested lists of rationals (reals where the source computes a
transcendental Gaussian), numpy/python integer quirks (`int()` truncation
toward zero, python3 banker's `round`) are embedded explicitly, and each
decoding routine is translated function by function from the source.
-/

/-- Element access `m[y][x]` with a default, matching in-range numpy indexing
of a rectangular array (the default is only produced out of range). -/
def getv {α : Type} (d : α) (m : List (List α)) (y x : ℕ) : α :=
  (m.getD y []).getD x d

/-- Python `int()` on a float: truncation toward zero. -/
def pyInt (q : ℚ) : ℤ :=
  if 0 ≤ q then ⌊q⌋ else -⌊-q⌋

/-- Python 3 `round` to an integer: round half to even (banker's rounding). -/
def pyRound (q : ℚ) : ℤ :=
  if q - ⌊q⌋ = 1/2 then (if 2 ∣ ⌊q⌋ then ⌊q⌋ else ⌊q⌋ + 1) else ⌊q + 1/2⌋

/-- `np.sign` on a scalar. -/
def npSign (q : ℚ) : ℚ :=
  if 0 < q then 1 else if q < 0 then -1 else 0

/-- A heatmap channel: `H` rows of `W` activations (`hms[k]`). -/
abbrev Channel := List (List ℚ)

/-- A heatmap tensor `(numJoints, H, W)`. -/
abbrev Heatmap := List Channel

/-- A bounding box `(xmin, ymin, xmax, ymax)`. -/
abbrev Bbox := ℚ × ℚ × ℚ × ℚ

/-- Scan of `np.argmax`/`np.max` over the tail of a flattened channel:
`i` is the index of the next element, `bi`/`bv` the best index and value so
far.  `np.argmax` keeps the first occurrence of the maximum, hence the
strict `bv < v` test. -/
def argmaxFrom (i : ℕ) (bi : ℕ) (bv : ℚ) : List ℚ → ℕ × ℚ
  | [] => (bi, bv)
  | v :: vs => if bv < v then argmaxFrom (i+1) i v vs else argmaxFrom (i+1) bi bv vs

/-- `np.argmax l, np.max l` on a flattened channel (`(0, 0)` on the empty
list, which numpy rejects). -/
def npArgmaxMax (l : List ℚ) : ℕ × ℚ :=
  match l with
  | [] => (0, 0)
  | v :: vs => argmaxFrom 1 0 v vs

/-- `get_max_pred` (basetransforms.py lines 723-742): per channel, the
row-major argmax as `(x, y) = (idx % width, idx // width)` and the maximum
value; the *coordinates* are multiplied by the mask `maxvals > 0`. -/
def get_max_pred (heatmaps : Heatmap) : List ((ℚ × ℚ) × ℚ) :=
  heatmaps.map (fun ch =>
    let width := (ch.headD []).length
    let im := npArgmaxMax ch.flatten
    let pred : ℚ × ℚ := (((im.1 % width : ℕ) : ℚ), ((im.1 / width : ℕ) : ℚ))
    (if 0 < im.2 then pred else (0, 0), im.2))

/-- A 2x3 affine matrix `[[a, b, c], [d, e, f]]`. -/
structure Aff2 where
  a : ℚ
  b : ℚ
  c : ℚ
  d : ℚ
  e : ℚ
  f : ℚ

/-- Determinant of a 3x3 matrix given row by row. -/
def det3x3 (a b c d e f g h i : ℚ) : ℚ :=
  a * (e * i - f * h) - b * (d * i - f * g) + c * (d * h - e * g)

/-- Cramer solve of `r·p.1 + s·p.2 + t = q` at three point/value pairs:
one row of the exact 3-correspondence affine solve performed by
`cv2.getAffineTransform`. -/
def solveAffineRow (p1 p2 p3 : ℚ × ℚ) (q1 q2 q3 : ℚ) : ℚ × ℚ × ℚ :=
  let D := det3x3 p1.1 p1.2 1 p2.1 p2.2 1 p3.1 p3.2 1
  (det3x3 q1 p1.2 1 q2 p2.2 1 q3 p3.2 1 / D,
   det3x3 p1.1 q1 1 p2.1 q2 1 p3.1 q3 1 / D,
   det3x3 p1.1 p1.2 q1 p2.1 p2.2 q2 p3.1 p3.2 q3 / D)

/-- `cv2.getAffineTransform src dst`: the unique affine map taking the three
source points to the three destination points. -/
def getAffineTri (s1 s2 s3 t1 t2 t3 : ℚ × ℚ) : Aff2 :=
  let rx := solveAffineRow s1 s2 s3 t1.1 t2.1 t3.1
  let ry := solveAffineRow s1 s2 s3 t1.2 t2.2 t3.2
  ⟨rx.1, rx.2.1, rx.2.2, ry.1, ry.2.1, ry.2.2⟩

/-- `get_3rd_point` (lines 330-333): `b + perpendicular (a - b)` with
`perpendicular (v) = (-v.y, v.x)`. -/
def get_3rd_point (a b : ℚ × ℚ) : ℚ × ℚ :=
  (b.1 - (a.2 - b.2), b.2 + (a.1 - b.1))

/-- `get_affine_transform` (lines 768-801) at `rot = 0` and `shift = (0, 0)`,
the only instantiation reached from the decode path (`transform_preds`
always passes `rot = 0`, where `get_dir [0, -w/2] 0 = (0, -w/2)` exactly).
Builds the two anchor points plus the synthetic perpendicular third point on
each side and solves the exact 3-point correspondence; `inv` swaps source
and destination. -/
def get_affine_transform (center scale : ℚ × ℚ) (output_size : ℚ × ℚ)
    (inv : Bool) : Aff2 :=
  let src_w := scale.1
  let dst_w := output_size.1
  let dst_h := output_size.2
  let src_dir : ℚ × ℚ := (0, src_w * (-1/2))
  let dst_dir : ℚ × ℚ := (0, dst_w * (-1/2))
  let s0 := center
  let s1 : ℚ × ℚ := (center.1 + src_dir.1, center.2 + src_dir.2)
  let s2 := get_3rd_point s0 s1
  let d0 : ℚ × ℚ := (dst_w * (1/2), dst_h * (1/2))
  let d1 : ℚ × ℚ := (d0.1 + dst_dir.1, d0.2 + dst_dir.2)
  let d2 := get_3rd_point d0 d1
  if inv then getAffineTri d0 d1 d2 s0 s1 s2 else getAffineTri s0 s1 s2 d0 d1 d2

/-- `affine_transform` (lines 804-807): apply a 2x3 matrix to a point in
homogeneous form. -/
def affine_transform (pt : ℚ × ℚ) (t : Aff2) : ℚ × ℚ :=
  (t.a * pt.1 + t.b * pt.2 + t.c, t.d * pt.1 + t.e * pt.2 + t.f)

/-- `transform_preds` (lines 716-720): map a refined heatmap-space point back
to image space through the inverse affine transform. -/
def transform_preds (coords : ℚ × ℚ) (center scale : ℚ × ℚ)
    (output_size : ℚ × ℚ) : ℚ × ℚ :=
  affine_transform coords (get_affine_transform center scale output_size true)

/-- The sub-pixel post-processing step shared verbatim by
`heatmap_to_coord_simple` (lines 617-625), `heatmap_to_coord_rmpe`
(lines 596-602) and `process_peak` (lines 693-700): round the coordinate,
and when `1 < px < hm_w - 1` and `1 < py < hm_h - 1` add a quarter pixel in
the direction of the activation gradient at the rounded position. -/
def subpixelRefine (hm : Channel) (hm_h hm_w : ℕ) (c : ℚ × ℚ) : ℚ × ℚ :=
  let px := pyRound c.1
  let py := pyRound c.2
  if 1 < px ∧ px < (hm_w : ℤ) - 1 ∧ 1 < py ∧ py < (hm_h : ℤ) - 1 then
    (c.1 + npSign (getv 0 hm py.toNat (px + 1).toNat -
                   getv 0 hm py.toNat (px - 1).toNat) * (1/4),
     c.2 + npSign (getv 0 hm (py + 1).toNat px.toNat -
                   getv 0 hm (py - 1).toNat px.toNat) * (1/4))
  else c

/-- The refinement loop of the single-peak decoders: apply `subpixelRefine`
to each channel's `get_max_pred` coordinates. -/
def refineStep (hms : Heatmap) : List (ℚ × ℚ) :=
  let hm_h := (hms.headD []).length
  let hm_w := ((hms.headD []).headD []).length
  (List.range hms.length).map (fun p =>
    subpixelRefine (hms.getD p []) hm_h hm_w
      ((get_max_pred hms).getD p ((0, 0), 0)).1)

/-- `heatmap_to_coord_simple` (lines 611-640): argmax, sub-pixel refinement,
then the inverse affine from heatmap space to the bounding box. -/
def heatmap_to_coord_simple (hms : Heatmap) (bbox : Bbox) :
    List (ℚ × ℚ) × List ℚ :=
  let hm_h := (hms.headD []).length
  let hm_w := ((hms.headD []).headD []).length
  let (xmin, ymin, xmax, ymax) := bbox
  let w := xmax - xmin
  let h := ymax - ymin
  let center : ℚ × ℚ := (xmin + w * (1/2), ymin + h * (1/2))
  let scale : ℚ × ℚ := (w, h)
  ((refineStep hms).map (fun c =>
      transform_preds c center scale ((hm_w : ℚ), (hm_h : ℚ))),
   (get_max_pred hms).map (·.2))

/-- Modelled from the spec: `transformBoxInvert` is imported from
`trackers/utils/bbox.py`, which is not under src/.  Per spec 4.3 it is the
legacy inverse box transform using "the same aspect-fit + padding logic as
CropTransform's forward geometry, inverted": the box is inflated to
`lenH = max (h, w * resH / resW)`, `lenW = lenH * resW / resH`, and the
heatmap-space point is mapped affinely from the `(resW, resH)` grid onto the
inflated box centered on the original box center. -/
def transformBoxInvert (pt : ℚ × ℚ) (bbox : Bbox) (resH resW : ℕ) : ℚ × ℚ :=
  let (xmin, ymin, xmax, ymax) := bbox
  let lenH := max (ymax - ymin) ((xmax - xmin) * resH / resW)
  let lenW := lenH * resW / resH
  ((xmin + xmax) * (1/2) - lenW * (1/2) + pt.1 * lenW / resW,
   (ymin + ymax) * (1/2) - lenH * (1/2) + pt.2 * lenH / resH)

/-- `heatmap_to_coord_rmpe` (lines 588-608): same argmax and sub-pixel
refinement, then the legacy inverse box transform. -/
def heatmap_to_coord_rmpe (hms : Heatmap) (bbox : Bbox) :
    List (ℚ × ℚ) × List ℚ :=
  let hm_h := (hms.headD []).length
  let hm_w := ((hms.headD []).headD []).length
  ((refineStep hms).map (fun c => transformBoxInvert c bbox hm_h hm_w),
   (get_max_pred hms).map (·.2))

/-- Index reflection of scipy's boundary mode `reflect`
(`d c b a | a b c d`), used by `maximum_filter`. -/
def reflectIdx (n : ℕ) (i : ℤ) : ℕ :=
  if n = 0 then 0 else
    let r := i.emod (2 * n)
    if r < n then r.toNat else (2 * n - 1 - r).toNat

/-- `scipy.ndimage.maximum_filter(hm, size=5)` at position `(y, x)`: the
maximum of the 5x5 window centered there, boundary mode `reflect`. -/
def maxFilter5 (hm : Channel) (y x : ℕ) : ℚ :=
  let H := hm.length
  let W := (hm.headD []).length
  let vals := (List.range 5).flatMap (fun i => (List.range 5).map (fun j =>
    getv 0 hm (reflectIdx H ((y : ℤ) + i - 2)) (reflectIdx W ((x : ℤ) + j - 2))))
  vals.foldl max (vals.headD 0)

/-- The `np.where((mx == hm) * (hm > 0.1))` collection of `get_peak`
(lines 662-666), in row-major order, as `[x, y, hm[y][x]]` triples. -/
def peakCandidates (hm : Channel) : List (ℚ × ℚ × ℚ) :=
  let H := hm.length
  let W := (hm.headD []).length
  (List.range H).flatMap (fun y => (List.range W).filterMap (fun x =>
    if maxFilter5 hm y x = getv 0 hm y x ∧ 1/10 < getv 0 hm y x then
      some ((x : ℚ), (y : ℚ), getv 0 hm y x)
    else none))

/-- The global-argmax fallback candidate of `get_peak` (lines 668-670). -/
def fallbackCand (hm : Channel) : ℚ × ℚ × ℚ :=
  let pm := (get_max_pred [hm]).headD ((0, 0), 0)
  (pm.1.1, pm.1.2, pm.2)

/-- The total order realized by
`candidate_points[np.lexsort(-candidate_points.T)]` (line 673): descending
by value, ties broken by descending `y`, then descending `x`. -/
def peakOrd (a b : ℚ × ℚ × ℚ) : Prop :=
  b.2.2 < a.2.2 ∨ (b.2.2 = a.2.2 ∧ (b.2.1 < a.2.1 ∨ (b.2.1 = a.2.1 ∧ b.1 ≤ a.1)))

instance : DecidableRel peakOrd := fun a b => by
  unfold peakOrd
  infer_instance

/-- `get_peak` (lines 658-676): per channel, the local maxima above `0.1`
(falling back to the global argmax when there are none), sorted descending
by `(value, y, x)`. -/
def get_peak (hms : Heatmap) : List (List (ℚ × ℚ × ℚ)) :=
  hms.map (fun hm =>
    let cands := peakCandidates hm
    let cands := if cands = [] then [fallbackCand hm] else cands
    List.insertionSort peakOrd cands)

/-- The accepted-candidate construction in the loop body of `process_peak`
(lines 693-712): sub-pixel refinement, inverse affine mapping, and the
`1e-5` confidence floor for candidates below `0.1`. -/
def peakPoint (hm : Channel) (bbox : Bbox) (hm_h hm_w : ℕ)
    (c : ℚ × ℚ × ℚ) : ℚ × ℚ × ℚ :=
  let (xmin, ymin, xmax, ymax) := bbox
  let w := xmax - xmin
  let h := ymax - ymin
  let center : ℚ × ℚ := (xmin + w * (1/2), ymin + h * (1/2))
  let scale : ℚ × ℚ := (w, h)
  let xy := subpixelRefine hm hm_h hm_w (c.1, c.2.1)
  let pt := transform_preds xy center scale ((hm_w : ℚ), (hm_h : ℚ))
  (pt.1, pt.2, if c.2.2 < 1/10 then 1/100000 else c.2.2)

/-- The accumulation loop of `process_peak` (lines 687-712): a candidate
below `0.1` is skipped when `res_pts` is already non-empty, otherwise the
built point is appended. -/
def processPeakGo (hm : Channel) (bbox : Bbox) (hm_h hm_w : ℕ) :
    List (ℚ × ℚ × ℚ) → List (ℚ × ℚ × ℚ) → List (ℚ × ℚ × ℚ)
  | [], res => res
  | c :: cs, res =>
    if c.2.2 < 1/10 ∧ res ≠ [] then processPeakGo hm bbox hm_h hm_w cs res
    else processPeakGo hm bbox hm_h hm_w cs (res ++ [peakPoint hm bbox hm_h hm_w c])

/-- `process_peak` (lines 679-713). -/
def process_peak (candidate_points : List (ℚ × ℚ × ℚ)) (hm : Channel)
    (bbox : Bbox) (hm_h hm_w : ℕ) : List (ℚ × ℚ × ℚ) :=
  processPeakGo hm bbox hm_h hm_w candidate_points []

/-- `multipeak_heatmap_to_coord` (lines 643-655): run `process_peak` on each
channel's candidate list; the second returned component is `None`. -/
def multipeak_heatmap_to_coord (hms : Heatmap) (bbox : Bbox) :
    List (List (ℚ × ℚ × ℚ)) × Option (List ℚ) :=
  let hm_h := (hms.headD []).length
  let hm_w := ((hms.headD []).headD []).length
  ((List.range hms.length).map (fun k =>
      process_peak ((get_peak hms).getD k []) (hms.getD k []) bbox hm_h hm_w),
   none)

/-- `box_transform` (lines 22-41) in non-training mode (`train = False`,
`scaleRate = 0.25`); the input bbox list is updated field by field in
place, so later fields read the already-updated earlier fields, and the
mutated list itself is returned. -/
def box_transform (bbox : Bbox) (imgwidth imght : ℚ) : Bbox :=
  let (b0, b1, b2, b3) := bbox
  let width := b2 - b0
  let ht := b3 - b1
  let n0 := max 0 (b0 - width * (1/4) / 2)
  let n1 := max 0 (b1 - ht * (1/4) / 2)
  let n2 := min imgwidth (max (b2 + width * (1/4) / 2) (n0 + 5))
  let n3 := min imght (max (b3 + ht * (1/4) / 2) (n1 + 5))
  (n0, n1, n2, n3)

/-- `flip` (lines 511-515) on a 3-dim tensor: reverse along the last
(width) axis. -/
def flipLastDim (hm : Heatmap) : Heatmap :=
  hm.map (fun ch => ch.map List.reverse)

/-- One channel swap `out[(i, j)] = out[(j, i)]` of `flip_heatmap`
(lines 539-546): positions `i` and `j` receive each other's current
channels. -/
def swapCh (l : Heatmap) (i j : ℕ) : Heatmap :=
  (l.set i (l.getD j [])).set j (l.getD i [])

/-- The sequential channel swaps of `flip_heatmap`'s pair loop
(lines 539-546). -/
def swapFold (joint_pairs : List (ℕ × ℕ)) (l : Heatmap) : Heatmap :=
  joint_pairs.foldl (fun o p => swapCh o p.1 p.2) l

/-- `flip_heatmap` (lines 518-553) on a 3-dim tensor: reverse the width
axis, swap the channels of every joint pair, and optionally shift all
content one column to the right (`out[:, :, 1:] = out[:, :, :-1]`). -/
def flip_heatmap (heatmap : Heatmap) (joint_pairs : List (ℕ × ℕ))
    (shift : Bool) : Heatmap :=
  let out := flipLastDim heatmap
  let out := swapFold joint_pairs out
  if shift then out.map (fun ch => ch.map (fun r => r.take 1 ++ r.dropLast))
  else out

/-- The 17-joint COCO `joint_pairs` table
(`alphapose/datasets/coco_det.py` lines 113-117). -/
def cocoJointPairs : List (ℕ × ℕ) :=
  [(1, 2), (3, 4), (5, 6), (7, 8), (9, 10), (11, 12), (13, 14), (15, 16)]

/-- The unnormalized Gaussian kernel of `drawGaussian` (lines 492-498):
`size = 6*sigma + 1`, center `x0 = y0 = size // 2 = 3*sigma`, value
`exp (-((x - x0)^2 + (y - y0)^2) / (2*sigma^2))` at row `i`, column `j`. -/
noncomputable def gaussKer (sigma : ℕ) (i j : ℤ) : ℝ :=
  Real.exp (-(((j : ℝ) - (3 * sigma : ℕ)) ^ 2 + ((i : ℝ) - (3 * sigma : ℕ)) ^ 2) /
    (2 * (sigma : ℝ) ^ 2))

/-- `drawGaussian` (lines 464-508) on a 2-dim heatmap channel (the function
indexes `img` with two subscripts; its callers pass one channel): compute
the kernel bounding box `ul`/`br` with python `int()` truncation, return the
channel untouched when that box misses the channel entirely, otherwise
overwrite exactly the overlap region with the matching kernel window.  The
written value at row `r`, column `c` is the kernel entry
`g[g_y0 + (r - img_y0)][g_x0 + (c - img_x0)]`. -/
noncomputable def drawGaussian (img : List (List ℝ)) (pt : ℚ × ℚ)
    (sigma : ℕ) : List (List ℝ) :=
  let H := img.length
  let W := (img.headD []).length
  let tmpSize : ℚ := (3 * sigma : ℕ)
  let ulx := pyInt (pt.1 - tmpSize)
  let uly := pyInt (pt.2 - tmpSize)
  let brx := pyInt (pt.1 + tmpSize + 1)
  let bry := pyInt (pt.2 + tmpSize + 1)
  if (W : ℤ) ≤ ulx ∨ (H : ℤ) ≤ uly ∨ brx < 0 ∨ bry < 0 then img
  else
    let gx0 := max 0 (-ulx)
    let gy0 := max 0 (-uly)
    let ix0 := max 0 ulx
    let ix1 := min brx (W : ℤ)
    let iy0 := max 0 uly
    let iy1 := min bry (H : ℤ)
    (List.range H).map (fun (r : ℕ) => (List.range W).map (fun (c : ℕ) =>
      if iy0 ≤ (r : ℤ) ∧ (r : ℤ) < iy1 ∧ ix0 ≤ (c : ℤ) ∧ (c : ℤ) < ix1 then
        gaussKer sigma (gy0 + ((r : ℤ) - iy0)) (gx0 + ((c : ℤ) - ix0))
      else getv 0 img r c))

/-- An image as a `(C, H, W)` tensor of rational pixel values. -/
abbrev Image := List (List (List ℚ))

/-- The in-place zero-padding step of `cv_cropBox` (lines 160-174): after
`xmax -= 1; ymax -= 1`, the caller's image is overwritten with zeros on all
rows above `ymin`, below `ymax`, and all columns left of `xmin` and right of
`xmax`.  This is the state of the caller's `img` after the call (the warp
itself reads from the image without writing to it).  The box is taken with
natural-number coordinates, as produced by the integer in-image boxes of
`fix_cropBox`. -/
def cvCropBoxImgPost (img : Image) (bbox : ℕ × ℕ × ℕ × ℕ) : Image :=
  let (xmin, ymin, xmax, ymax) := bbox
  let xmax := xmax - 1
  let ymax := ymax - 1
  img.map (fun ch => ch.mapIdx (fun y row => row.mapIdx (fun x v =>
    if y < ymin ∨ ymax + 1 ≤ y ∨ x < xmin ∨ xmax + 1 ≤ x then 0 else v)))

/-- Shape of a torch tensor in this code: two-dim `(rows, cols)` or
three-dim `(C, H, W)`; the two-dim case also stands for a two-dim numpy
array when a function returns one. -/
inductive TShape where
  | t2 : ℕ → ℕ → TShape
  | t3 : ℕ → ℕ → ℕ → TShape
deriving DecidableEq

/-- Shape of a numpy image array: `(H, W)` or `(H, W, C)`. -/
inductive NpShape where
  | n2 : ℕ → ℕ → NpShape
  | n3 : ℕ → ℕ → ℕ → NpShape
deriving DecidableEq

/-- Number of array dimensions of a result shape. -/
def tndim : TShape → ℕ
  | .t2 _ _ => 2
  | .t3 _ _ _ => 3

/-- `torch_to_im` (lines 98-114) on shapes: `(C, H, W) -> (H, W, C)`. -/
def torch_to_im_shape : TShape → NpShape
  | .t2 h w => .n2 h w
  | .t3 c h w => .n3 h w c

/-- `im_to_torch` (lines 77-95) on shapes: `(H, W, C) -> (C, H, W)`. -/
def im_to_torch_shape : NpShape → TShape
  | .n2 h w => .t2 h w
  | .n3 h w c => .t3 c h w

/-- `cv2.warpAffine` output shape for a destination size `(outW, outH)`:
channels are preserved, except that OpenCV returns a two-dim array for
single-channel input. -/
def warpAffine_shape (s : NpShape) (outH outW : ℕ) : NpShape :=
  match s with
  | .n2 _ _ => .n2 outH outW
  | .n3 _ _ c => if c = 1 then .n2 outH outW else .n3 outH outW c

/-- The shape behaviour of `cv_cropBox` (lines 142-193): promote a two-dim
input to `(1, H, W)`, convert to `(H, W, C)`, warp, re-add the channel axis
whenever the warp output is two-dim (line 190-191: `dst_img[:, :,
np.newaxis]`), and convert back to a `(C, resH, resW)` torch tensor. -/
def cv_cropBox_shape (s : TShape) (resH resW : ℕ) : TShape :=
  let s := match s with
    | .t2 h w => .t3 1 h w
    | x => x
  let d := warpAffine_shape (torch_to_im_shape s) resH resW
  let d := match d with
    | .n2 h w => .n3 h w 1
    | x => x
  im_to_torch_shape d

/-- The shape behaviour of `cv_cropBoxInverse` (lines 347-400): promote a
two-dim input to `(1, H, W)`, convert, warp to the original image size, and
return the warp output with any trivial channel axis dropped (lines
394-398); only multi-channel results are converted back to torch tensors. -/
def cv_cropBoxInverse_shape (s : TShape) (imgH imgW : ℕ) : TShape :=
  let s := match s with
    | .t2 h w => .t3 1 h w
    | x => x
  let d := warpAffine_shape (torch_to_im_shape s) imgH imgW
  match d with
  | .n3 h w 1 => .t2 h w
  | .n2 h w => .t2 h w
  | x => im_to_torch_shape x

/-- The scan `argmaxFrom` returns a value that is at least the running best,
is the running best or a list element, and bounds every list element. -/
theorem argmaxFrom_max (l : List ℚ) : ∀ i bi bv,
    bv ≤ (argmaxFrom i bi bv l).2 ∧
    ((argmaxFrom i bi bv l).2 = bv ∨ (argmaxFrom i bi bv l).2 ∈ l) ∧
    (∀ v ∈ l, v ≤ (argmaxFrom i bi bv l).2) := by
  induction l with
  | nil =>
    intro i bi bv
    refine ⟨le_refl _, Or.inl rfl, ?_⟩
    intro v hv
    simp at hv
  | cons u us ih =>
    intro i bi bv
    by_cases h : bv < u
    · have h3 := ih (i + 1) i u
      rw [show argmaxFrom i bi bv (u :: us) = argmaxFrom (i + 1) i u us from by
        simp [argmaxFrom, h]]
      refine ⟨le_trans (le_of_lt h) h3.1, ?_, ?_⟩
      · rcases h3.2.1 with h' | h'
        · exact Or.inr (by rw [h']; exact List.mem_cons_self _ _)
        · exact Or.inr (List.mem_cons_of_mem _ h')
      · intro v hv
        rcases List.mem_cons.mp hv with rfl | hv
        · exact h3.1
        · exact h3.2.2 v hv
    · have h3 := ih (i + 1) bi bv
      rw [show argmaxFrom i bi bv (u :: us) = argmaxFrom (i + 1) bi bv us from by
        simp [argmaxFrom, h]]
      refine ⟨h3.1, ?_, ?_⟩
      · rcases h3.2.1 with h' | h'
        · exact Or.inl h'
        · exact Or.inr (List.mem_cons_of_mem _ h')
      · intro v hv
        rcases List.mem_cons.mp hv with rfl | hv
        · exact le_trans (not_lt.mp h) h3.1
        · exact h3.2.2 v hv

/-- `npArgmaxMax` computes the maximum of a non-empty list. -/
theorem npArgmaxMax_max (l : List ℚ) :
    (l ≠ [] → (npArgmaxMax l).2 ∈ l) ∧ ∀ v ∈ l, v ≤ (npArgmaxMax l).2 := by
  match l with
  | [] =>
    refine ⟨fun h => absurd rfl h, ?_⟩
    intro v hv
    simp at hv
  | u :: us =>
    have h3 := argmaxFrom_max us 1 0 u
    have hdef : npArgmaxMax (u :: us) = argmaxFrom 1 0 u us := rfl
    refine ⟨fun _ => ?_, ?_⟩
    · rw [hdef]
      rcases h3.2.1 with h' | h'
      · rw [h']; exact List.mem_cons_self _ _
      · exact List.mem_cons_of_mem _ h'
    · intro v hv
      rw [hdef]
      rcases List.mem_cons.mp hv with rfl | hv
      · exact h3.1
      · exact h3.2.2 v hv

/-- `getD` through `map` at an in-range index. -/
theorem getD_map_lt {α β : Type} (f : α → β) (l : List α) (k : ℕ)
    (hk : k < l.length) (d : β) (d' : α) :
    (l.map f).getD k d = f (l.getD k d') := by
  rw [List.getD_eq_getElem?_getD, List.getD_eq_getElem?_getD, List.getElem?_map,
    List.getElem?_eq_getElem hk]
  rfl

/-- Claim C1 (amended): for every channel `get_max_pred` returns the true
channel maximum as the confidence, unmasked; it is the predicted
*coordinates*, not the confidence, that are forced to `(0, 0)` when the
maximum is `<= 0`.  (On the spec's non-negative heatmaps the claim's
conclusion still follows, since a maximum `<= 0` of non-negative values is
already `0`, as the last conjunct records.) -/
theorem C1_confidence_is_unmasked_max (hms : Heatmap) (k : ℕ)
    (hk : k < hms.length) :
    ((hms.getD k []).flatten ≠ [] →
      ((get_max_pred hms).getD k ((0, 0), 0)).2 ∈ (hms.getD k []).flatten) ∧
    (∀ v ∈ (hms.getD k []).flatten,
      v ≤ ((get_max_pred hms).getD k ((0, 0), 0)).2) ∧
    (((get_max_pred hms).getD k ((0, 0), 0)).2 ≤ 0 →
      ((get_max_pred hms).getD k ((0, 0), 0)).1 = (0, 0)) ∧
    ((∀ v ∈ (hms.getD k []).flatten, 0 ≤ v) → (hms.getD k []).flatten ≠ [] →
      ((get_max_pred hms).getD k ((0, 0), 0)).2 ≤ 0 →
      ((get_max_pred hms).getD k ((0, 0), 0)).2 = 0) := by
  have hrw : (get_max_pred hms).getD k ((0, 0), 0) =
      (let ch := hms.getD k []
       let width := (ch.headD []).length
       let im := npArgmaxMax ch.flatten
       let pred : ℚ × ℚ := (((im.1 % width : ℕ) : ℚ), ((im.1 / width : ℕ) : ℚ))
       (if 0 < im.2 then pred else (0, 0), im.2)) := by
    rw [get_max_pred, getD_map_lt _ hms k hk _ []]
  rw [hrw]
  have hmax := npArgmaxMax_max (hms.getD k []).flatten
  refine ⟨fun hne => hmax.1 hne, fun v hv => hmax.2 v hv, fun hle => ?_, ?_⟩
  · simp only
    rw [if_neg (not_lt.mpr hle)]
  · intro hnn hne hle
    exact le_antisymm hle (hnn _ (hmax.1 hne))

/-- Witness for C1 at a concrete heatmap with channel `[[1, 2], [3, -4]]`. -/
theorem C1_witness :
    0 < ([[[(1 : ℚ), 2], [3, -4]]] : Heatmap).length ∧
    ((([[[(1 : ℚ), 2], [3, -4]]] : Heatmap).getD 0 []).flatten ≠ [] →
      ((get_max_pred [[[(1 : ℚ), 2], [3, -4]]]).getD 0 ((0, 0), 0)).2 ∈
        (([[[(1 : ℚ), 2], [3, -4]]] : Heatmap).getD 0 []).flatten) ∧
    (∀ v ∈ (([[[(1 : ℚ), 2], [3, -4]]] : Heatmap).getD 0 []).flatten,
      v ≤ ((get_max_pred [[[(1 : ℚ), 2], [3, -4]]]).getD 0 ((0, 0), 0)).2) ∧
    (((get_max_pred [[[(1 : ℚ), 2], [3, -4]]]).getD 0 ((0, 0), 0)).2 ≤ 0 →
      ((get_max_pred [[[(1 : ℚ), 2], [3, -4]]]).getD 0 ((0, 0), 0)).1 = (0, 0)) ∧
    ((∀ v ∈ (([[[(1 : ℚ), 2], [3, -4]]] : Heatmap).getD 0 []).flatten, 0 ≤ v) →
      (([[[(1 : ℚ), 2], [3, -4]]] : Heatmap).getD 0 []).flatten ≠ [] →
      ((get_max_pred [[[(1 : ℚ), 2], [3, -4]]]).getD 0 ((0, 0), 0)).2 ≤ 0 →
      ((get_max_pred [[[(1 : ℚ), 2], [3, -4]]]).getD 0 ((0, 0), 0)).2 = 0) :=
  ⟨by norm_num, C1_confidence_is_unmasked_max [[[(1 : ℚ), 2], [3, -4]]] 0 (by norm_num)⟩

/-- `getD` of a mapped `List.range` at an in-range index. -/
theorem getD_range_map {β : Type} (f : ℕ → β) (n p : ℕ) (hp : p < n) (d : β) :
    ((List.range n).map f).getD p d = f p := by
  rw [getD_map_lt f (List.range n) p (by simpa using hp) d 0]
  congr 1
  rw [List.getD_eq_getElem?_getD, List.getElem?_range hp]
  rfl

/-- Claim C2 (amended): in the single-peak decoders the quarter-pixel
correction is applied exactly when the rounded argmax satisfies
`1 < px < hm_w - 1` and `1 < py < hm_h - 1`; so positions with `px` or `py`
equal to `1` (which are not on the outermost ring of pixels) get no
correction either, in addition to the outermost ring itself. -/
theorem C2_quarter_pixel_condition (hms : Heatmap) (p : ℕ)
    (hp : p < hms.length) :
    let hm_h := (hms.headD []).length
    let hm_w := ((hms.headD []).headD []).length
    let hm := hms.getD p []
    let c := ((get_max_pred hms).getD p ((0, 0), 0)).1
    let px := pyRound c.1
    let py := pyRound c.2
    ((1 < px ∧ px < (hm_w : ℤ) - 1 ∧ 1 < py ∧ py < (hm_h : ℤ) - 1) →
      (refineStep hms).getD p (0, 0) =
        (c.1 + npSign (getv 0 hm py.toNat (px + 1).toNat -
                       getv 0 hm py.toNat (px - 1).toNat) * (1/4),
         c.2 + npSign (getv 0 hm (py + 1).toNat px.toNat -
                       getv 0 hm (py - 1).toNat px.toNat) * (1/4))) ∧
    (¬(1 < px ∧ px < (hm_w : ℤ) - 1 ∧ 1 < py ∧ py < (hm_h : ℤ) - 1) →
      (refineStep hms).getD p (0, 0) = c) := by
  intro hm_h hm_w hm c px py
  have hrw : (refineStep hms).getD p (0, 0) = subpixelRefine hm hm_h hm_w c := by
    rw [refineStep]
    exact getD_range_map _ _ p hp _
  constructor
  · intro hcond
    rw [hrw]
    simp only [subpixelRefine]
    rw [if_pos hcond]
  · intro hcond
    rw [hrw]
    simp only [subpixelRefine]
    rw [if_neg hcond]

/-- A 5x5 channel whose argmax is at `(x, y) = (1, 2)`, one pixel from the
left edge, with a positive horizontal gradient there. -/
def exCh5 : Channel :=
  [[0, 0, 0, 0, 0],
   [0, 0, 0, 0, 0],
   [0, 1, 1/2, 0, 0],
   [0, 0, 0, 0, 0],
   [0, 0, 0, 0, 0]]

/-- Witness for C2 on a 5x5 channel with argmax at `(2, 2)`, strictly inside
the 2-pixel low-side margin. -/
theorem C2_witness :
    0 < ([exCh5.map List.reverse] : Heatmap).length ∧
    (let hms : Heatmap := [exCh5.map List.reverse]
     let hm_h := (hms.headD []).length
     let hm_w := ((hms.headD []).headD []).length
     let hm := hms.getD 0 []
     let c := ((get_max_pred hms).getD 0 ((0, 0), 0)).1
     let px := pyRound c.1
     let py := pyRound c.2
     ((1 < px ∧ px < (hm_w : ℤ) - 1 ∧ 1 < py ∧ py < (hm_h : ℤ) - 1) →
       (refineStep hms).getD 0 (0, 0) =
         (c.1 + npSign (getv 0 hm py.toNat (px + 1).toNat -
                        getv 0 hm py.toNat (px - 1).toNat) * (1/4),
          c.2 + npSign (getv 0 hm (py + 1).toNat px.toNat -
                        getv 0 hm (py - 1).toNat px.toNat) * (1/4))) ∧
     (¬(1 < px ∧ px < (hm_w : ℤ) - 1 ∧ 1 < py ∧ py < (hm_h : ℤ) - 1) →
       (refineStep hms).getD 0 (0, 0) = c)) :=
  ⟨by norm_num, C2_quarter_pixel_condition [exCh5.map List.reverse] 0 (by norm_num)⟩

/-- Counterexample to claim C2 as stated: on `exCh5` the argmax `(1, 2)`
lies strictly inside the 1-pixel border (it is not on the outermost ring),
the horizontal gradient at it is positive, so the claim demands the
corrected coordinate `(1 + 1/4, 2)`; the code leaves the coordinate at
`(1, 2)` because its guard requires `1 < px`. -/
theorem C2_counterexample :
    (refineStep [exCh5]).getD 0 (0, 0) = (1, 2) ∧
    ((get_max_pred [exCh5]).getD 0 ((0, 0), 0)).1 = (1, 2) ∧
    pyRound (1 : ℚ) = 1 ∧ pyRound (2 : ℚ) = 2 ∧
    (0 : ℤ) < 1 ∧ (1 : ℤ) < 5 - 1 ∧ (0 : ℤ) < 2 ∧ (2 : ℤ) < 5 - 1 ∧
    npSign (getv 0 exCh5 2 2 - getv 0 exCh5 2 0) * (1/4) = 1/4 ∧
    ((1 : ℚ), (2 : ℚ)) ≠
      (1 + npSign (getv 0 exCh5 2 2 - getv 0 exCh5 2 0) * (1/4),
       2 + npSign (getv 0 exCh5 3 1 - getv 0 exCh5 1 1) * (1/4)) := by
  norm_num [refineStep, get_max_pred, subpixelRefine, npArgmaxMax, argmaxFrom,
    pyRound, npSign, getv, exCh5, List.range_succ, List.getD, Prod.ext_iff]

/-- The clamped upper edge `min W (max A (n + 5))` stays at least
`min 5 (W - n)` above `n`. -/
theorem clamp_min_extent (A W n : ℚ) : min 5 (W - n) ≤ min W (max A (n + 5)) - n := by
  rcases le_total W (n + 5) with h | h
  · have h1 : W ≤ max A (n + 5) := le_trans h (le_max_right _ _)
    rw [min_eq_left h1]
    exact min_le_right _ _
  · have h2 : n + 5 ≤ min W (max A (n + 5)) :=
      le_min h (le_max_right _ _)
    have h3 : min 5 (W - n) ≤ 5 := min_le_left _ _
    linarith

/-- Claim C3 (amended): in non-training mode `box_transform` keeps all four
coordinates inside `[0, imgwidth] x [0, imght]`, and guarantees the
5-pixel minimum extent only up to clipping at the image edge:
`xmax - xmin >= min 5 (imgwidth - xmin)` and
`ymax - ymin >= min 5 (imght - ymin)` (the full `>= 5` bound fails for
boxes whose expanded lower corner is within 5 pixels of the image edge). -/
theorem C3_box_transform_bounds (b0 b1 b2 b3 W H : ℚ)
    (h0 : 0 ≤ b0) (h1 : 0 ≤ b1) (h02 : b0 < b2) (h13 : b1 < b3)
    (h2W : b2 ≤ W) (h3H : b3 ≤ H) :
    0 ≤ (box_transform (b0, b1, b2, b3) W H).1 ∧
    (box_transform (b0, b1, b2, b3) W H).1 ≤ W ∧
    0 ≤ (box_transform (b0, b1, b2, b3) W H).2.1 ∧
    (box_transform (b0, b1, b2, b3) W H).2.1 ≤ H ∧
    0 ≤ (box_transform (b0, b1, b2, b3) W H).2.2.1 ∧
    (box_transform (b0, b1, b2, b3) W H).2.2.1 ≤ W ∧
    0 ≤ (box_transform (b0, b1, b2, b3) W H).2.2.2 ∧
    (box_transform (b0, b1, b2, b3) W H).2.2.2 ≤ H ∧
    min 5 (W - (box_transform (b0, b1, b2, b3) W H).1) ≤
      (box_transform (b0, b1, b2, b3) W H).2.2.1 -
        (box_transform (b0, b1, b2, b3) W H).1 ∧
    min 5 (H - (box_transform (b0, b1, b2, b3) W H).2.1) ≤
      (box_transform (b0, b1, b2, b3) W H).2.2.2 -
        (box_transform (b0, b1, b2, b3) W H).2.1 := by
  set r : Bbox := box_transform (b0, b1, b2, b3) W H with hrdef
  have hW : 0 ≤ W := le_trans h0 (le_trans (le_of_lt h02) h2W)
  have hH : 0 ≤ H := le_trans h1 (le_trans (le_of_lt h13) h3H)
  have hr : r = (max 0 (b0 - (b2 - b0) * (1/4) / 2),
                 max 0 (b1 - (b3 - b1) * (1/4) / 2),
                 min W (max (b2 + (b2 - b0) * (1/4) / 2)
                   (max 0 (b0 - (b2 - b0) * (1/4) / 2) + 5)),
                 min H (max (b3 + (b3 - b1) * (1/4) / 2)
                   (max 0 (b1 - (b3 - b1) * (1/4) / 2) + 5))) := rfl
  rw [hr]
  have hn0a : (0:ℚ) ≤ max 0 (b0 - (b2 - b0) * (1/4) / 2) := le_max_left _ _
  have hn0b : max 0 (b0 - (b2 - b0) * (1/4) / 2) ≤ W :=
    max_le hW (by linarith)
  have hn1a : (0:ℚ) ≤ max 0 (b1 - (b3 - b1) * (1/4) / 2) := le_max_left _ _
  have hn1b : max 0 (b1 - (b3 - b1) * (1/4) / 2) ≤ H :=
    max_le hH (by linarith)
  refine ⟨hn0a, hn0b, hn1a, hn1b, ?_, min_le_left _ _, ?_, min_le_left _ _, ?_, ?_⟩
  · exact le_min hW (le_trans (by linarith) (le_max_right _ _))
  · exact le_min hH (le_trans (by linarith) (le_max_right _ _))
  · exact clamp_min_extent _ _ _
  · exact clamp_min_extent _ _ _

/-- Witness for C3 at the box `(10, 10, 20, 20)` in a 100x100 image. -/
theorem C3_witness :
    ((0:ℚ) ≤ 10 ∧ (0:ℚ) ≤ 10 ∧ (10:ℚ) < 20 ∧ (10:ℚ) < 20 ∧
      (20:ℚ) ≤ 100 ∧ (20:ℚ) ≤ 100) ∧
    (let r := box_transform (10, 10, 20, 20) 100 100
     0 ≤ r.1 ∧ r.1 ≤ 100 ∧ 0 ≤ r.2.1 ∧ r.2.1 ≤ 100 ∧
     0 ≤ r.2.2.1 ∧ r.2.2.1 ≤ 100 ∧ 0 ≤ r.2.2.2 ∧ r.2.2.2 ≤ 100 ∧
     min 5 (100 - r.1) ≤ r.2.2.1 - r.1 ∧
     min 5 (100 - r.2.1) ≤ r.2.2.2 - r.2.1) :=
  ⟨by norm_num,
   C3_box_transform_bounds 10 10 20 20 100 100 (by norm_num) (by norm_num)
     (by norm_num) (by norm_num) (by norm_num) (by norm_num)⟩

/-- Counterexample to claim C3 as stated: the box `(97, 10, 98, 90)` has
positive extent and lies inside a 100x100 image, yet the transformed box
has width `100 - 775/8 = 25/8 < 5`: the `xmin + 5` floor is clipped away
by the `min imgwidth` bound at the right image edge. -/
theorem C3_counterexample :
    box_transform (97, 10, 98, 90) 100 100 = (775/8, 0, 100, 100) ∧
    (100 : ℚ) - 775/8 < 5 ∧
    (0:ℚ) ≤ 97 ∧ (0:ℚ) ≤ 10 ∧ (97:ℚ) < 98 ∧ (10:ℚ) < 90 ∧
    (98:ℚ) ≤ 100 ∧ (90:ℚ) ≤ 100 := by
  norm_num [box_transform, Prod.ext_iff]

/-- Reading a grid built over `List.range` at an in-range position. -/
theorem getv_grid {α : Type} (d : α) (H W : ℕ) (F : ℕ → ℕ → α) (r c : ℕ)
    (hr : r < H) (hc : c < W) :
    getv d ((List.range H).map fun y => (List.range W).map fun x => F y x) r c
      = F r c := by
  unfold getv
  have hrow : ((List.range H).map fun y => (List.range W).map fun x => F y x).getD r []
      = (List.range W).map fun x => F r x := by
    rw [List.getD_eq_getElem?_getD, List.getElem?_map, List.getElem?_range hr]
    simp only [Option.map_some', Option.getD_some]
  rw [hrow, List.getD_eq_getElem?_getD, List.getElem?_map, List.getElem?_range hc]
  simp only [Option.map_some', Option.getD_some]

/-- The value written by `drawGaussian` anywhere in the overlap region is the
corresponding Gaussian kernel entry. -/
theorem drawGaussian_value (img : List (List ℝ)) (pt : ℚ × ℚ) (sigma : ℕ)
    (r c : ℕ)
    (hne : ¬ ((((img.headD []).length : ℤ) ≤ pyInt (pt.1 - ((3 * sigma : ℕ) : ℚ))) ∨
              (((img.length : ℤ) ≤ pyInt (pt.2 - ((3 * sigma : ℕ) : ℚ)))) ∨
              pyInt (pt.1 + ((3 * sigma : ℕ) : ℚ) + 1) < 0 ∨
              pyInt (pt.2 + ((3 * sigma : ℕ) : ℚ) + 1) < 0))
    (hr : r < img.length) (hc : c < (img.headD []).length)
    (hin : max 0 (pyInt (pt.2 - ((3 * sigma : ℕ) : ℚ))) ≤ (r : ℤ) ∧
           (r : ℤ) < min (pyInt (pt.2 + ((3 * sigma : ℕ) : ℚ) + 1)) (img.length : ℤ) ∧
           max 0 (pyInt (pt.1 - ((3 * sigma : ℕ) : ℚ))) ≤ (c : ℤ) ∧
           (c : ℤ) < min (pyInt (pt.1 + ((3 * sigma : ℕ) : ℚ) + 1))
             ((img.headD []).length : ℤ)) :
    getv 0 (drawGaussian img pt sigma) r c =
      gaussKer sigma
        (max 0 (-(pyInt (pt.2 - ((3 * sigma : ℕ) : ℚ)))) +
          ((r : ℤ) - max 0 (pyInt (pt.2 - ((3 * sigma : ℕ) : ℚ)))))
        (max 0 (-(pyInt (pt.1 - ((3 * sigma : ℕ) : ℚ)))) +
          ((c : ℤ) - max 0 (pyInt (pt.1 - ((3 * sigma : ℕ) : ℚ))))) := by
  simp only [drawGaussian]
  rw [if_neg hne, getv_grid 0 img.length (img.headD []).length _ r c hr hc,
    if_pos hin]

/-- The Gaussian kernel equals `1` exactly at its center `(3σ, 3σ)`. -/
theorem gaussKer_center (sigma : ℕ) :
    gaussKer sigma ((3 * sigma : ℕ) : ℤ) ((3 * sigma : ℕ) : ℤ) = 1 := by
  unfold gaussKer
  have h : ((((3 * sigma : ℕ) : ℤ) : ℝ) - ((3 * sigma : ℕ) : ℝ)) = 0 := by
    push_cast
    ring
  rw [h]
  norm_num

/-- After a fully in-bounds stamp the heatmap holds exactly `1` at the
floor of the stamped point (the kernel center lands on the floor, because
`ul` is computed with python `int()` truncation). -/
theorem drawGaussian_floor_peak (img : List (List ℝ)) (pt : ℚ × ℚ) (sigma : ℕ)
    (hx : ((3 * sigma : ℕ) : ℚ) ≤ pt.1) (hy : ((3 * sigma : ℕ) : ℚ) ≤ pt.2)
    (hbx : pyInt (pt.1 + ((3 * sigma : ℕ) : ℚ) + 1) ≤ ((img.headD []).length : ℤ))
    (hby : pyInt (pt.2 + ((3 * sigma : ℕ) : ℚ) + 1) ≤ (img.length : ℤ)) :
    getv 0 (drawGaussian img pt sigma) ⌊pt.2⌋.toNat ⌊pt.1⌋.toNat = 1 := by
  have hs0 : (0 : ℚ) ≤ ((3 * sigma : ℕ) : ℚ) := by positivity
  have hfx : ((3 * sigma : ℕ) : ℤ) ≤ ⌊pt.1⌋ := Int.le_floor.mpr (by exact_mod_cast hx)
  have hfy : ((3 * sigma : ℕ) : ℤ) ≤ ⌊pt.2⌋ := Int.le_floor.mpr (by exact_mod_cast hy)
  have hulx : pyInt (pt.1 - ((3 * sigma : ℕ) : ℚ)) = ⌊pt.1⌋ - ((3 * sigma : ℕ) : ℤ) := by
    rw [pyInt, if_pos (by linarith), Int.floor_sub_nat]
  have huly : pyInt (pt.2 - ((3 * sigma : ℕ) : ℚ)) = ⌊pt.2⌋ - ((3 * sigma : ℕ) : ℤ) := by
    rw [pyInt, if_pos (by linarith), Int.floor_sub_nat]
  have hbrx : pyInt (pt.1 + ((3 * sigma : ℕ) : ℚ) + 1)
      = ⌊pt.1⌋ + ((3 * sigma : ℕ) : ℤ) + 1 := by
    rw [pyInt, if_pos (by linarith),
      show pt.1 + ((3 * sigma : ℕ) : ℚ) + 1 = pt.1 + ((3 * sigma + 1 : ℕ) : ℚ) by
        push_cast; ring,
      Int.floor_add_nat]
    push_cast
    ring
  have hbry : pyInt (pt.2 + ((3 * sigma : ℕ) : ℚ) + 1)
      = ⌊pt.2⌋ + ((3 * sigma : ℕ) : ℤ) + 1 := by
    rw [pyInt, if_pos (by linarith),
      show pt.2 + ((3 * sigma : ℕ) : ℚ) + 1 = pt.2 + ((3 * sigma + 1 : ℕ) : ℚ) by
        push_cast; ring,
      Int.floor_add_nat]
    push_cast
    ring
  have hW : ⌊pt.1⌋ + ((3 * sigma : ℕ) : ℤ) + 1 ≤ ((img.headD []).length : ℤ) :=
    hbrx ▸ hbx
  have hH : ⌊pt.2⌋ + ((3 * sigma : ℕ) : ℤ) + 1 ≤ (img.length : ℤ) := hbry ▸ hby
  have hr : ⌊pt.2⌋.toNat < img.length := by omega
  have hc : ⌊pt.1⌋.toNat < (img.headD []).length := by omega
  have hval := drawGaussian_value img pt sigma ⌊pt.2⌋.toNat ⌊pt.1⌋.toNat
    (by rw [hulx, huly, hbrx, hbry]; omega) hr hc
    (by rw [hulx, huly, hbrx, hbry]; refine ⟨by omega, by omega, by omega, by omega⟩)
  rw [hval, hulx, huly]
  have e1 : max 0 (-(⌊pt.2⌋ - ((3 * sigma : ℕ) : ℤ))) +
      ((⌊pt.2⌋.toNat : ℤ) - max 0 (⌊pt.2⌋ - ((3 * sigma : ℕ) : ℤ)))
      = ((3 * sigma : ℕ) : ℤ) := by omega
  have e2 : max 0 (-(⌊pt.1⌋ - ((3 * sigma : ℕ) : ℤ))) +
      ((⌊pt.1⌋.toNat : ℤ) - max 0 (⌊pt.1⌋ - ((3 * sigma : ℕ) : ℤ)))
      = ((3 * sigma : ℕ) : ℤ) := by omega
  rw [e1, e2]
  exact gaussKer_center sigma

/-- Claim C4 (amended): after a fully in-bounds stamp with `sigma >= 1` the
heatmap value at the *floor* (python `int()` truncation) of the stamped
point is exactly `1`; the claim's "rounded" coordinates agree with this
only when the fractional parts are below one half. -/
theorem C4_gauss_peak_at_floor (img : List (List ℝ)) (pt : ℚ × ℚ) (sigma : ℕ)
    (_hs : 1 ≤ sigma)
    (hx : ((3 * sigma : ℕ) : ℚ) ≤ pt.1) (hy : ((3 * sigma : ℕ) : ℚ) ≤ pt.2)
    (hbx : pyInt (pt.1 + ((3 * sigma : ℕ) : ℚ) + 1) ≤ ((img.headD []).length : ℤ))
    (hby : pyInt (pt.2 + ((3 * sigma : ℕ) : ℚ) + 1) ≤ (img.length : ℤ)) :
    getv 0 (drawGaussian img pt sigma) ⌊pt.2⌋.toNat ⌊pt.1⌋.toNat = 1 :=
  drawGaussian_floor_peak img pt sigma hx hy hbx hby

/-- A 7x7 all-zero real channel. -/
def exImg7 : List (List ℝ) := List.replicate 7 (List.replicate 7 0)

/-- Witness for C4: stamping `exImg7` at the integer point `(3, 3)` with
`sigma = 1` puts an exact `1` at `(3, 3)`. -/
theorem C4_witness :
    (1 ≤ 1) ∧ (((3 * 1 : ℕ) : ℚ) ≤ ((3 : ℚ), (3 : ℚ)).1) ∧
    (((3 * 1 : ℕ) : ℚ) ≤ ((3 : ℚ), (3 : ℚ)).2) ∧
    (pyInt (((3 : ℚ), (3 : ℚ)).1 + ((3 * 1 : ℕ) : ℚ) + 1) ≤
      ((exImg7.headD []).length : ℤ)) ∧
    (pyInt (((3 : ℚ), (3 : ℚ)).2 + ((3 * 1 : ℕ) : ℚ) + 1) ≤ (exImg7.length : ℤ)) ∧
    getv 0 (drawGaussian exImg7 ((3 : ℚ), (3 : ℚ)) 1)
      ⌊((3 : ℚ), (3 : ℚ)).2⌋.toNat ⌊((3 : ℚ), (3 : ℚ)).1⌋.toNat = 1 :=
  ⟨le_refl 1, by norm_num, by norm_num, by norm_num [pyInt, exImg7, List.replicate],
   by norm_num [pyInt, exImg7, List.replicate],
   C4_gauss_peak_at_floor exImg7 ((3 : ℚ), (3 : ℚ)) 1 (le_refl 1) (by norm_num)
     (by norm_num) (by norm_num [pyInt, exImg7, List.replicate]) (by norm_num [pyInt, exImg7, List.replicate])⟩

/-- An 8x8 all-zero real channel. -/
def exImg8 : List (List ℝ) := List.replicate 8 (List.replicate 8 0)

/-- Counterexample to claim C4 as stated: stamping the 8x8 zero channel at
`pt = (3.6, 3.6)` with `sigma = 1` is fully in bounds, the rounded
coordinates of `pt` are `(4, 4)`, but the stamped value there is
`exp (-1)`, not `1` (the exact `1` lands at the floor `(3, 3)`). -/
theorem C4_counterexample :
    (0 ≤ pyInt ((18/5 : ℚ) - ((3 * 1 : ℕ) : ℚ))) ∧
    (pyInt ((18/5 : ℚ) + ((3 * 1 : ℕ) : ℚ) + 1) ≤ ((exImg8.headD []).length : ℤ)) ∧
    (pyInt ((18/5 : ℚ) + ((3 * 1 : ℕ) : ℚ) + 1) ≤ (exImg8.length : ℤ)) ∧
    pyRound (18/5 : ℚ) = 4 ∧
    getv 0 (drawGaussian exImg8 ((18/5 : ℚ), (18/5 : ℚ)) 1)
      (pyRound (18/5 : ℚ)).toNat (pyRound (18/5 : ℚ)).toNat ≠ 1 := by
  have h4 : pyRound (18/5 : ℚ) = 4 := by norm_num [pyRound]
  refine ⟨by norm_num [pyInt], by norm_num [pyInt, exImg8, List.replicate],
    by norm_num [pyInt, exImg8, List.replicate], h4, ?_⟩
  rw [h4]
  have hval := drawGaussian_value exImg8 ((18/5 : ℚ), (18/5 : ℚ)) 1 4 4
    (by norm_num [pyInt, exImg8, List.replicate]) (by norm_num [exImg8, List.replicate]) (by norm_num [exImg8, List.replicate])
    (by norm_num [pyInt, exImg8, List.replicate])
  have e0 : ((4 : ℤ)).toNat = 4 := rfl
  rw [e0, hval]
  have e1 : max 0 (-(pyInt ((18/5 : ℚ) - ((3 * 1 : ℕ) : ℚ)))) +
      (((4 : ℕ) : ℤ) - max 0 (pyInt ((18/5 : ℚ) - ((3 * 1 : ℕ) : ℚ)))) = 4 := by
    norm_num [pyInt]
  rw [show ((18/5 : ℚ), (18/5 : ℚ)).1 = (18/5 : ℚ) from rfl,
    show ((18/5 : ℚ), (18/5 : ℚ)).2 = (18/5 : ℚ) from rfl, e1]
  unfold gaussKer
  have harg : (-((((4 : ℤ) : ℝ) - ((3 * 1 : ℕ) : ℝ)) ^ 2 +
      (((4 : ℤ) : ℝ) - ((3 * 1 : ℕ) : ℝ)) ^ 2) / (2 * ((1 : ℕ) : ℝ) ^ 2)) = -1 := by
    norm_num
  rw [harg]
  intro hcontra
  have h0 : (-1 : ℝ) = 0 := Real.exp_injective (hcontra.trans Real.exp_zero.symm)
  norm_num at h0

/-- Candidate confidence at least `0.1`, as a boolean (the survivors of the
`process_peak` skip rule). -/
def confHigh (d : ℚ × ℚ × ℚ) : Bool :=
  decide ((1/10 : ℚ) ≤ d.2.2)

/-- With a non-empty accumulator, a run of all-low candidates adds
nothing. -/
theorem processPeakGo_all_low (hm : Channel) (bbox : Bbox) (hm_h hm_w : ℕ)
    (cs : List (ℚ × ℚ × ℚ)) : ∀ res, res ≠ [] → (∀ d ∈ cs, d.2.2 < 1/10) →
    processPeakGo hm bbox hm_h hm_w cs res = res := by
  induction cs with
  | nil => intro res _ _; rfl
  | cons c cs ih =>
    intro res hres hlow
    rw [processPeakGo, if_pos ⟨hlow c (List.mem_cons_self _ _), hres⟩]
    exact ih res hres (fun d hd => hlow d (List.mem_cons_of_mem _ hd))

/-- With a non-empty accumulator and a descending candidate list, the run
appends exactly the points of the high-confidence prefix. -/
theorem processPeakGo_keeps_high (hm : Channel) (bbox : Bbox) (hm_h hm_w : ℕ)
    (cs : List (ℚ × ℚ × ℚ)) :
    ∀ res, res ≠ [] → List.Pairwise (fun a b => b.2.2 ≤ a.2.2) cs →
    processPeakGo hm bbox hm_h hm_w cs res =
      res ++ (cs.takeWhile confHigh).map (peakPoint hm bbox hm_h hm_w) := by
  induction cs with
  | nil => intro res _ _; simp [processPeakGo]
  | cons c cs ih =>
    intro res hres hsort
    by_cases hc : c.2.2 < 1/10
    · rw [processPeakGo, if_pos ⟨hc, hres⟩]
      rw [processPeakGo_all_low hm bbox hm_h hm_w cs res hres
        (fun d hd => lt_of_le_of_lt ((List.pairwise_cons.mp hsort).1 d hd) hc)]
      have ht : confHigh c = false := by
        simp [confHigh]
        linarith
      rw [List.takeWhile_cons, ht]
      simp
    · rw [processPeakGo, if_neg (fun hand => hc hand.1)]
      rw [ih (res ++ [peakPoint hm bbox hm_h hm_w c]) (by simp)
        (List.pairwise_cons.mp hsort).2]
      have ht : confHigh c = true := by
        simp [confHigh]
        linarith
      rw [List.takeWhile_cons, ht]
      simp

/-- Claim C5: on a candidate list sorted descending by confidence (as
`get_peak` produces), `process_peak` accepts exactly the prefix of
candidates with confidence `>= 0.1`, each with its true confidence; when
even the top candidate is below `0.1` it alone is accepted, reported with
confidence `1e-5` (inside `peakPoint`).  In particular a low-confidence
candidate is dropped iff an earlier candidate was accepted. -/
theorem C5_process_peak_characterization (cands : List (ℚ × ℚ × ℚ))
    (hm : Channel) (bbox : Bbox) (hm_h hm_w : ℕ)
    (hsort : List.Pairwise (fun a b => b.2.2 ≤ a.2.2) cands) :
    process_peak cands hm bbox hm_h hm_w =
      match cands with
      | [] => []
      | c :: cs =>
        if (1/10 : ℚ) ≤ c.2.2 then
          peakPoint hm bbox hm_h hm_w c ::
            (cs.takeWhile confHigh).map (peakPoint hm bbox hm_h hm_w)
        else [peakPoint hm bbox hm_h hm_w c] := by
  match cands with
  | [] => rfl
  | c :: cs =>
    rw [process_peak, processPeakGo, if_neg (fun hand => hand.2 rfl)]
    simp only [List.nil_append]
    by_cases hc : (1/10 : ℚ) ≤ c.2.2
    · rw [processPeakGo_keeps_high hm bbox hm_h hm_w cs
        [peakPoint hm bbox hm_h hm_w c] (by simp) (List.pairwise_cons.mp hsort).2]
      rw [if_pos hc]
      rfl
    · rw [processPeakGo_all_low hm bbox hm_h hm_w cs
        [peakPoint hm bbox hm_h hm_w c] (by simp)
        (fun d hd => lt_of_le_of_lt ((List.pairwise_cons.mp hsort).1 d hd)
          (not_le.mp hc))]
      rw [if_neg hc]

/-- Witness for C5 on the descending list
`[(2, 2, 1/2), (1, 1, 3/10), (0, 0, 1/20)]`. -/
theorem C5_witness :
    List.Pairwise (fun (a b : ℚ × ℚ × ℚ) => b.2.2 ≤ a.2.2)
      [((2 : ℚ), (2 : ℚ), (1/2 : ℚ)), (1, 1, 3/10), (0, 0, 1/20)] ∧
    process_peak [((2 : ℚ), (2 : ℚ), (1/2 : ℚ)), (1, 1, 3/10), (0, 0, 1/20)]
        [] (0, 0, 4, 4) 4 4 =
      (if (1/10 : ℚ) ≤ (1/2 : ℚ) then
        peakPoint [] (0, 0, 4, 4) 4 4 ((2 : ℚ), (2 : ℚ), (1/2 : ℚ)) ::
          (List.takeWhile confHigh [((1 : ℚ), (1 : ℚ), (3/10 : ℚ)), (0, 0, 1/20)]).map
            (peakPoint [] (0, 0, 4, 4) 4 4)
      else [peakPoint [] (0, 0, 4, 4) 4 4 ((2 : ℚ), (2 : ℚ), (1/2 : ℚ))]) :=
  ⟨by norm_num [List.pairwise_cons],
   C5_process_peak_characterization
     [((2 : ℚ), (2 : ℚ), (1/2 : ℚ)), (1, 1, 3/10), (0, 0, 1/20)] [] (0, 0, 4, 4)
     4 4 (by norm_num [List.pairwise_cons])⟩

/-- In-range `getD` is a member of the list. -/
theorem getD_mem_of_lt {α : Type} (l : List α) (n : ℕ) (d : α)
    (h : n < l.length) : l.getD n d ∈ l := by
  rw [List.getD_eq_getElem?_getD, List.getElem?_eq_getElem h]
  exact List.getElem_mem h

/-- `getD` out of range returns the default. -/
theorem getD_eq_default_of_le {α : Type} (l : List α) (n : ℕ) (d : α)
    (h : l.length ≤ n) : l.getD n d = d := by
  rw [List.getD_eq_getElem?_getD, List.getElem?_eq_none h]
  rfl

/-- `getv` is bounded by any bound on the channel values (the out-of-range
default `0` being covered by non-negativity of the bound). -/
theorem getv_le_of_all (hm : Channel) (C : ℚ) (hC : 0 ≤ C)
    (h : ∀ v ∈ hm.flatten, v ≤ C) (y x : ℕ) : getv 0 hm y x ≤ C := by
  unfold getv
  by_cases hy : y < hm.length
  · by_cases hx : x < (hm.getD y []).length
    · apply h
      rw [List.mem_flatten]
      exact ⟨hm.getD y [], getD_mem_of_lt hm y [] hy, getD_mem_of_lt _ x 0 hx⟩
    · rw [getD_eq_default_of_le _ x 0 (le_of_not_lt hx)]
      exact hC
  · rw [getD_eq_default_of_le hm y [] (le_of_not_lt hy)]
    simpa using hC

/-- When no channel value exceeds `0.1` the local-maximum collection of
`get_peak` is empty. -/
theorem peakCandidates_nil (hm : Channel) (h : ∀ v ∈ hm.flatten, v ≤ 1/10) :
    peakCandidates hm = [] := by
  unfold peakCandidates
  rw [List.flatMap_eq_nil_iff]
  intro y _
  rw [List.filterMap_eq_nil_iff]
  intro x _
  rw [if_neg]
  intro hand
  exact absurd hand.2 (not_lt.mpr (getv_le_of_all hm (1/10) (by norm_num) h y x))

/-- Claim C6: when no value of channel `k` exceeds `0.1`, `get_peak`
produces exactly one candidate for that channel, namely the global argmax
coordinates and maximum value as returned by `get_max_pred`. -/
theorem C6_get_peak_fallback (hms : Heatmap) (k : ℕ) (hk : k < hms.length)
    (h : ∀ v ∈ (hms.getD k []).flatten, v ≤ 1/10) :
    (get_peak hms).getD k [] =
      [(((get_max_pred hms).getD k ((0, 0), 0)).1.1,
        ((get_max_pred hms).getD k ((0, 0), 0)).1.2,
        ((get_max_pred hms).getD k ((0, 0), 0)).2)] := by
  have hpc : peakCandidates (hms.getD k []) = [] := peakCandidates_nil _ h
  have h1 : (get_peak hms).getD k []
      = List.insertionSort peakOrd
          (if peakCandidates (hms.getD k []) = [] then [fallbackCand (hms.getD k [])]
           else peakCandidates (hms.getD k [])) := by
    rw [get_peak, getD_map_lt _ hms k hk _ []]
  rw [h1, hpc, if_pos rfl]
  have h2 : (get_max_pred hms).getD k ((0, 0), 0)
      = (get_max_pred [hms.getD k []]).headD ((0, 0), 0) := by
    rw [get_max_pred, getD_map_lt _ hms k hk _ []]
    rfl
  rw [h2]
  rfl

/-- Witness for C6 on the heatmap that is identically `1/20 = 0.05`. -/
theorem C6_witness :
    0 < ([[[(1/20 : ℚ), 1/20], [1/20, 1/20]]] : Heatmap).length ∧
    (∀ v ∈ (([[[(1/20 : ℚ), 1/20], [1/20, 1/20]]] : Heatmap).getD 0 []).flatten,
      v ≤ 1/10) ∧
    (get_peak [[[(1/20 : ℚ), 1/20], [1/20, 1/20]]]).getD 0 [] =
      [(((get_max_pred [[[(1/20 : ℚ), 1/20], [1/20, 1/20]]]).getD 0 ((0, 0), 0)).1.1,
        ((get_max_pred [[[(1/20 : ℚ), 1/20], [1/20, 1/20]]]).getD 0 ((0, 0), 0)).1.2,
        ((get_max_pred [[[(1/20 : ℚ), 1/20], [1/20, 1/20]]]).getD 0 ((0, 0), 0)).2)] :=
  ⟨by norm_num,
   by norm_num [List.forall_mem_cons],
   C6_get_peak_fallback [[[(1/20 : ℚ), 1/20], [1/20, 1/20]]] 0 (by norm_num)
     (by norm_num [List.forall_mem_cons])⟩

/-- Reversing the width axis twice is the identity. -/
theorem flipLastDim_flipLastDim (h : Heatmap) :
    flipLastDim (flipLastDim h) = h := by
  simp [flipLastDim, List.map_map, Function.comp_def]

/-- `getD` through the width flip (the default `[]` is a fixed point of the
per-channel map). -/
theorem getD_flipLastDim (l : Heatmap) (n : ℕ) :
    (flipLastDim l).getD n [] = (l.getD n []).map List.reverse := by
  by_cases hn : n < l.length
  · exact getD_map_lt _ l n hn _ []
  · rw [getD_eq_default_of_le _ n [] (by simpa [flipLastDim] using le_of_not_lt hn),
      getD_eq_default_of_le l n [] (le_of_not_lt hn)]
    rfl

/-- A channel swap commutes with the width flip. -/
theorem flipLastDim_swapCh (l : Heatmap) (i j : ℕ) :
    flipLastDim (swapCh l i j) = swapCh (flipLastDim l) i j := by
  show flipLastDim ((l.set i (l.getD j [])).set j (l.getD i []))
    = ((flipLastDim l).set i ((flipLastDim l).getD j [])).set j
        ((flipLastDim l).getD i [])
  rw [getD_flipLastDim, getD_flipLastDim]
  show List.map (fun ch => ch.map List.reverse)
      ((l.set i (l.getD j [])).set j (l.getD i [])) = _
  rw [List.map_set, List.map_set]
  rfl

/-- The pair-swap loop commutes with the width flip. -/
theorem flipLastDim_swapFold (pairs : List (ℕ × ℕ)) :
    ∀ l, flipLastDim (swapFold pairs l) = swapFold pairs (flipLastDim l) := by
  induction pairs with
  | nil => intro l; rfl
  | cons p ps ih =>
    intro l
    show flipLastDim (swapFold ps (swapCh l p.1 p.2))
      = swapFold ps (swapCh (flipLastDim l) p.1 p.2)
    rw [ih, flipLastDim_swapCh]

/-- Evaluating the COCO pair-swap loop on an explicit 17-channel list. -/
theorem swapFold_coco_lit (c0 c1 c2 c3 c4 c5 c6 c7 c8 c9 c10 c11 c12 c13 c14
    c15 c16 : Channel) :
    swapFold cocoJointPairs [c0, c1, c2, c3, c4, c5, c6, c7, c8, c9, c10, c11, c12, c13, c14, c15, c16]
      = [c0, c2, c1, c4, c3, c6, c5, c8, c7, c10, c9, c12, c11, c14, c13, c16, c15] := by
  simp only [swapFold, cocoJointPairs, List.foldl_cons, List.foldl_nil]
  rw [show swapCh [c0, c1, c2, c3, c4, c5, c6, c7, c8, c9, c10, c11, c12, c13, c14, c15, c16] 1 2
      = [c0, c2, c1, c3, c4, c5, c6, c7, c8, c9, c10, c11, c12, c13, c14, c15, c16] from rfl]
  rw [show swapCh [c0, c2, c1, c3, c4, c5, c6, c7, c8, c9, c10, c11, c12, c13, c14, c15, c16] 3 4
      = [c0, c2, c1, c4, c3, c5, c6, c7, c8, c9, c10, c11, c12, c13, c14, c15, c16] from rfl]
  rw [show swapCh [c0, c2, c1, c4, c3, c5, c6, c7, c8, c9, c10, c11, c12, c13, c14, c15, c16] 5 6
      = [c0, c2, c1, c4, c3, c6, c5, c7, c8, c9, c10, c11, c12, c13, c14, c15, c16] from rfl]
  rw [show swapCh [c0, c2, c1, c4, c3, c6, c5, c7, c8, c9, c10, c11, c12, c13, c14, c15, c16] 7 8
      = [c0, c2, c1, c4, c3, c6, c5, c8, c7, c9, c10, c11, c12, c13, c14, c15, c16] from rfl]
  rw [show swapCh [c0, c2, c1, c4, c3, c6, c5, c8, c7, c9, c10, c11, c12, c13, c14, c15, c16] 9 10
      = [c0, c2, c1, c4, c3, c6, c5, c8, c7, c10, c9, c11, c12, c13, c14, c15, c16] from rfl]
  rw [show swapCh [c0, c2, c1, c4, c3, c6, c5, c8, c7, c10, c9, c11, c12, c13, c14, c15, c16] 11 12
      = [c0, c2, c1, c4, c3, c6, c5, c8, c7, c10, c9, c12, c11, c13, c14, c15, c16] from rfl]
  rw [show swapCh [c0, c2, c1, c4, c3, c6, c5, c8, c7, c10, c9, c12, c11, c13, c14, c15, c16] 13 14
      = [c0, c2, c1, c4, c3, c6, c5, c8, c7, c10, c9, c12, c11, c14, c13, c15, c16] from rfl]
  rw [show swapCh [c0, c2, c1, c4, c3, c6, c5, c8, c7, c10, c9, c12, c11, c14, c13, c15, c16] 15 16
      = [c0, c2, c1, c4, c3, c6, c5, c8, c7, c10, c9, c12, c11, c14, c13, c16, c15] from rfl]

/-- On a 17-channel tensor the COCO pair swaps are an involution. -/
theorem swapFold_coco_involutive :
    ∀ l : Heatmap, l.length = 17 →
    swapFold cocoJointPairs (swapFold cocoJointPairs l) = l := by
  intro l hl
  rcases l with _ | ⟨c0, l⟩
  · simp at hl
  rcases l with _ | ⟨c1, l⟩
  · simp at hl
  rcases l with _ | ⟨c2, l⟩
  · simp at hl
  rcases l with _ | ⟨c3, l⟩
  · simp at hl
  rcases l with _ | ⟨c4, l⟩
  · simp at hl
  rcases l with _ | ⟨c5, l⟩
  · simp at hl
  rcases l with _ | ⟨c6, l⟩
  · simp at hl
  rcases l with _ | ⟨c7, l⟩
  · simp at hl
  rcases l with _ | ⟨c8, l⟩
  · simp at hl
  rcases l with _ | ⟨c9, l⟩
  · simp at hl
  rcases l with _ | ⟨c10, l⟩
  · simp at hl
  rcases l with _ | ⟨c11, l⟩
  · simp at hl
  rcases l with _ | ⟨c12, l⟩
  · simp at hl
  rcases l with _ | ⟨c13, l⟩
  · simp at hl
  rcases l with _ | ⟨c14, l⟩
  · simp at hl
  rcases l with _ | ⟨c15, l⟩
  · simp at hl
  rcases l with _ | ⟨c16, l⟩
  · simp at hl
  have h0 : l.length = 0 := by
    simp only [List.length_cons] at hl
    omega
  rcases List.length_eq_zero.mp h0
  rw [swapFold_coco_lit, swapFold_coco_lit]

/-- Claim C7: flipping a 17-channel heatmap twice with the COCO joint-pair
table and `shift = false` returns the heatmap exactly. -/
theorem C7_flip_heatmap_involution (hm : Heatmap) (hlen : hm.length = 17) :
    flip_heatmap (flip_heatmap hm cocoJointPairs false) cocoJointPairs false
      = hm := by
  have hdef : ∀ x : Heatmap,
      flip_heatmap x cocoJointPairs false = swapFold cocoJointPairs (flipLastDim x) :=
    fun _ => rfl
  rw [hdef, hdef, flipLastDim_swapFold, flipLastDim_flipLastDim]
  exact swapFold_coco_involutive hm hlen

/-- Witness for C7 on a concrete 17-channel heatmap with distinct
channels. -/
theorem C7_witness :
    ([[[(0 : ℚ)]], [[1]], [[2]], [[3]], [[4]], [[5]], [[6]], [[7]], [[8]],
      [[9]], [[10]], [[11]], [[12]], [[13]], [[14]], [[15]], [[16]]] :
        Heatmap).length = 17 ∧
    flip_heatmap (flip_heatmap
        [[[(0 : ℚ)]], [[1]], [[2]], [[3]], [[4]], [[5]], [[6]], [[7]], [[8]],
         [[9]], [[10]], [[11]], [[12]], [[13]], [[14]], [[15]], [[16]]]
        cocoJointPairs false) cocoJointPairs false
      = [[[(0 : ℚ)]], [[1]], [[2]], [[3]], [[4]], [[5]], [[6]], [[7]], [[8]],
         [[9]], [[10]], [[11]], [[12]], [[13]], [[14]], [[15]], [[16]]] :=
  ⟨rfl,
   C7_flip_heatmap_involution
     [[[(0 : ℚ)]], [[1]], [[2]], [[3]], [[4]], [[5]], [[6]], [[7]], [[8]],
      [[9]], [[10]], [[11]], [[12]], [[13]], [[14]], [[15]], [[16]]] rfl⟩

/-- Claim C8 (amended): `cv_cropBoxInverse` does drop the trivial channel
axis, returning a 2-dim array whenever its input is single-channel; but
`cv_cropBox` does the opposite — it re-adds the channel axis after the warp
and always returns a 3-dim `(C, resH, resW)` tensor, `(1, resH, resW)` in
the single-channel case. -/
theorem C8_single_channel_shapes (h w resH resW imgH imgW : ℕ) :
    cv_cropBoxInverse_shape (.t3 1 h w) imgH imgW = .t2 imgH imgW ∧
    tndim (cv_cropBoxInverse_shape (.t3 1 h w) imgH imgW) = 2 ∧
    cv_cropBoxInverse_shape (.t2 h w) imgH imgW = .t2 imgH imgW ∧
    cv_cropBox_shape (.t3 1 h w) resH resW = .t3 1 resH resW ∧
    tndim (cv_cropBox_shape (.t3 1 h w) resH resW) = 3 ∧
    cv_cropBox_shape (.t2 h w) resH resW = .t3 1 resH resW :=
  ⟨rfl, rfl, rfl, rfl, rfl, rfl⟩

/-- Counterexample to claim C8 as stated: the forward crop of a
single-channel `(1, 5, 5)` tensor returns a 3-dim `(1, 4, 4)` tensor, not a
2-dim array — `cv_cropBox` re-inserts the trivial channel axis (lines
190-193) instead of dropping it. -/
theorem C8_counterexample :
    cv_cropBox_shape (.t3 1 5 5) 4 4 = .t3 1 4 4 ∧
    tndim (cv_cropBox_shape (.t3 1 5 5) 4 4) = 3 ∧ (3 : ℕ) ≠ 2 := by
  decide

/-- Claim C9 (amended): the operations write their results into the
caller's buffers; in particular, after any non-training `box_transform`
call on a box with positive width and `xmin > 0`, the stored `xmin`
strictly decreases — the caller's bbox does not survive the call. -/
theorem C9_box_transform_mutates (b0 b1 b2 b3 W H : ℚ)
    (h0 : 0 < b0) (hw : b0 < b2) :
    (box_transform (b0, b1, b2, b3) W H).1 < b0 := by
  show max 0 (b0 - (b2 - b0) * (1/4) / 2) < b0
  exact max_lt h0 (by linarith)

/-- Witness for C9 at the box `(10, 10, 20, 20)`. -/
theorem C9_witness :
    (0 : ℚ) < 10 ∧ (10 : ℚ) < 20 ∧
    (box_transform (10, 10, 20, 20) 100 100).1 < 10 :=
  ⟨by norm_num, by norm_num,
   C9_box_transform_mutates 10 10 20 20 100 100 (by norm_num) (by norm_num)⟩

/-- Counterexample to claim C9 as stated: each of the three operations
changes a caller-supplied input buffer.  `box_transform` leaves the bbox
list holding the expanded box, not the original; the zero-padding step of
`cv_cropBox` overwrites the input image outside the box (here the first
row and column of a 2x2 all-ones image with box `(1, 1, 2, 2)`); and
`drawGaussian` writes the kernel into the caller's channel (the all-zero
7x7 channel acquires a `1`). -/
theorem C9_counterexample :
    box_transform (10, 10, 20, 20) 100 100 ≠ ((10 : ℚ), (10 : ℚ), (20 : ℚ), (20 : ℚ)) ∧
    cvCropBoxImgPost [[[1, 1], [1, 1]]] (1, 1, 2, 2) ≠ [[[(1 : ℚ), 1], [1, 1]]] ∧
    drawGaussian exImg7 ((3 : ℚ), (3 : ℚ)) 1 ≠ exImg7 := by
  refine ⟨?_, ?_, ?_⟩
  · norm_num [box_transform, Prod.ext_iff]
  · norm_num [cvCropBoxImgPost, List.mapIdx_cons]
  · intro heq
    have h2 : getv 0 (drawGaussian exImg7 ((3 : ℚ), (3 : ℚ)) 1) 3 3 = 1 := by
      have h3 := drawGaussian_floor_peak exImg7 ((3 : ℚ), (3 : ℚ)) 1 (by norm_num)
        (by norm_num) (by norm_num [pyInt, exImg7, List.replicate])
        (by norm_num [pyInt, exImg7, List.replicate])
      rw [show ⌊((3 : ℚ), (3 : ℚ)).2⌋ = 3 from by norm_num] at h3
      exact h3
    rw [heq] at h2
    have h5 : getv 0 exImg7 3 3 = 0 := by
      norm_num [getv, exImg7, List.replicate, List.getD]
    rw [h5] at h2
    exact zero_ne_one h2

/-- Witness for C8 at concrete sizes. -/
theorem C8_witness :
    cv_cropBoxInverse_shape (.t3 1 5 5) 6 6 = .t2 6 6 ∧
    tndim (cv_cropBoxInverse_shape (.t3 1 5 5) 6 6) = 2 ∧
    cv_cropBoxInverse_shape (.t2 5 5) 6 6 = .t2 6 6 ∧
    cv_cropBox_shape (.t3 1 5 5) 4 4 = .t3 1 4 4 ∧
    tndim (cv_cropBox_shape (.t3 1 5 5) 4 4) = 3 ∧
    cv_cropBox_shape (.t2 5 5) 4 4 = .t3 1 4 4 :=
  C8_single_channel_shapes 5 5 4 4 6 6

/-- Every point produced by the `process_peak` loop is either from the
initial accumulator or built by `peakPoint` from an input candidate. -/
theorem processPeakGo_mem (hm : Channel) (bbox : Bbox) (hm_h hm_w : ℕ) :
    ∀ cands res p, p ∈ processPeakGo hm bbox hm_h hm_w cands res →
      p ∈ res ∨ ∃ c ∈ cands, p = peakPoint hm bbox hm_h hm_w c := by
  intro cands
  induction cands with
  | nil => intro res p hp; exact Or.inl hp
  | cons c cs ih =>
    intro res p hp
    rw [processPeakGo] at hp
    by_cases hc : c.2.2 < 1/10 ∧ res ≠ []
    · rw [if_pos hc] at hp
      rcases ih res p hp with h | ⟨d, hd, he⟩
      · exact Or.inl h
      · exact Or.inr ⟨d, List.mem_cons_of_mem _ hd, he⟩
    · rw [if_neg hc] at hp
      rcases ih _ p hp with h | ⟨d, hd, he⟩
      · rcases List.mem_append.mp h with h' | h'
        · exact Or.inl h'
        · exact Or.inr ⟨c, List.mem_cons_self _ _, List.mem_singleton.mp h'⟩
      · exact Or.inr ⟨d, List.mem_cons_of_mem _ hd, he⟩

/-- The third entry of an accepted point is the floored confidence. -/
theorem peakPoint_third (hm : Channel) (bbox : Bbox) (hm_h hm_w : ℕ)
    (c : ℚ × ℚ × ℚ) :
    (peakPoint hm bbox hm_h hm_w c).2.2
      = if c.2.2 < 1/10 then 1/100000 else c.2.2 := rfl

/-- Claim C10: `multipeak_heatmap_to_coord` returns `none` as its second
component, while the single-peak decoders return a per-channel `maxvals`
list (of one entry per channel); each multi-peak point instead carries its
confidence — the floored confidence of the candidate it was built from — as
its third entry. -/
theorem C10_multipeak_second_none (hms : Heatmap) (bbox : Bbox) :
    (multipeak_heatmap_to_coord hms bbox).2 = none ∧
    (heatmap_to_coord_simple hms bbox).2.length = hms.length ∧
    (heatmap_to_coord_rmpe hms bbox).2.length = hms.length ∧
    ∀ pts ∈ (multipeak_heatmap_to_coord hms bbox).1, ∀ p ∈ pts,
      ∃ k, k < hms.length ∧ ∃ c ∈ (get_peak hms).getD k [],
        p.2.2 = if c.2.2 < 1/10 then 1/100000 else c.2.2 := by
  refine ⟨rfl, ?_, ?_, ?_⟩
  · show ((get_max_pred hms).map (·.2)).length = hms.length
    rw [List.length_map, get_max_pred, List.length_map]
  · show ((get_max_pred hms).map (·.2)).length = hms.length
    rw [List.length_map, get_max_pred, List.length_map]
  · intro pts hpts p hp
    simp only [multipeak_heatmap_to_coord] at hpts
    rcases List.mem_map.mp hpts with ⟨k, hk, rfl⟩
    have hk' : k < hms.length := List.mem_range.mp hk
    rcases processPeakGo_mem _ _ _ _ _ _ p hp with h | ⟨c, hc, rfl⟩
    · simp at h
    · exact ⟨k, hk', c, hc, peakPoint_third _ _ _ _ c⟩

/-- Witness for C10 at a concrete one-channel heatmap and box. -/
theorem C10_witness :
    (multipeak_heatmap_to_coord [[[(1 : ℚ)]]] (0, 0, 2, 2)).2 = none ∧
    (heatmap_to_coord_simple [[[(1 : ℚ)]]] (0, 0, 2, 2)).2.length
      = ([[[(1 : ℚ)]]] : Heatmap).length ∧
    (heatmap_to_coord_rmpe [[[(1 : ℚ)]]] (0, 0, 2, 2)).2.length
      = ([[[(1 : ℚ)]]] : Heatmap).length ∧
    ∀ pts ∈ (multipeak_heatmap_to_coord [[[(1 : ℚ)]]] (0, 0, 2, 2)).1, ∀ p ∈ pts,
      ∃ k, k < ([[[(1 : ℚ)]]] : Heatmap).length ∧
        ∃ c ∈ (get_peak [[[(1 : ℚ)]]]).getD k [],
          p.2.2 = if c.2.2 < 1/10 then 1/100000 else c.2.2 :=
  C10_multipeak_second_none [[[(1 : ℚ)]]] (0, 0, 2, 2)

/-- Counterexample to claim C1 as stated: on the single-channel heatmap
`[[-1]]` the channel maximum is `-1 <= 0`, yet `get_max_pred` returns
confidence `-1`, not `0` (only the coordinates are zeroed). -/
theorem C1_counterexample :
    get_max_pred [[[(-1 : ℚ)]]] = [((0, 0), -1)] ∧
      (-1 : ℚ) ≤ 0 ∧ (-1 : ℚ) ≠ 0 := by
  refine ⟨rfl, by norm_num, by norm_num⟩
